import Mathlib

/-!
Shallow embedding of the process-table core of `task_manager_app.py`
(class `TaskManagerApp`): the data model, the process sampler, the
snapshot reconciler, the hierarchy filter/view (search + treeview
insertion), the periodic scheduler tasks, and the process control
actions.  UI plumbing (widget layout, colors, translation strings,
sqlite logging) is abstracted away; OS calls (psutil) are passed in as
explicit outcome parameters so that the control flow of the Python code
is preserved exactly.
-/

namespace TaskManagerApp

/-- One raw entry produced by `psutil.process_iter(...)` /
`process.as_dict([...])` in `_update_processes_thread`: the fixed
attribute set `pid, name, status, cpu_percent, memory_info(rss), ppid`.
The float `cpu_percent` is abstracted to a numeric field; `memory_info`
is kept as its `rss` byte count. -/
structure RawInfo where
  pid : Nat
  name : String
  status : String
  cpu_percent : Nat
  rss : Nat
  ppid : Nat
  deriving Repr, DecidableEq

/-- One record of the process-data cache `self.process_data[pid]` as
built by `process_data_update`: name, status, cpu_percent, memory_mb
(rss / (1024*1024), float division abstracted to Nat division — no
claim inspects the value), ppid, and the re-resolved live handle
`process_obj` (abstracted to an opaque numeric handle id). -/
structure ProcRecord where
  name : String
  status : String
  cpu_percent : Nat
  memory_mb : Nat
  ppid : Nat
  process_obj : Nat
  deriving Repr, DecidableEq

/-- The process table `self.process_data`: a Python dict keyed by pid,
modelled as an association list in insertion order (Python dicts
iterate in insertion order). -/
abbrev ProcTable := List (Nat × ProcRecord)

/-- Python dict lookup `table[pid]` / `pid in table`: first (unique)
binding of the key. -/
def dictLookup (k : Nat) : ProcTable → Option ProcRecord
  | [] => none
  | e :: rest => if e.1 = k then some e.2 else dictLookup k rest

/-- Python dict assignment `table[pid] = rec`: overwrite the existing
binding in place, else append at the end (insertion order preserved). -/
def dictInsert (k : Nat) (v : ProcRecord) : ProcTable → ProcTable
  | [] => [(k, v)]
  | e :: rest => if e.1 = k then (k, v) :: rest else e :: dictInsert k v rest

/-- The keys of a table, in iteration order. -/
def dictKeys (t : ProcTable) : List Nat := t.map Prod.fst

/-! ### Case-insensitive substring search

`search_processes` tests `search_term in process_info['name'].lower()`
after `search_term = self.search_entry.get().lower()`.  Python string
containment `needle in hay` holds exactly when `hay` decomposes as
`s ++ needle ++ t`; we implement it by the usual scan and prove that
characterisation below.  Python `str.lower()` maps `Char.toLower` over
the characters. -/

/-- Whether `needle` is an initial segment of `hay`. -/
def startsWithList : List Char → List Char → Bool
  | [], _ => true
  | _ :: _, [] => false
  | a :: as, b :: bs => a == b && startsWithList as bs

/-- Python `needle in hay` for character lists: scan for an initial
segment at each position. -/
def substringOf : List Char → List Char → Bool
  | needle, [] => needle.isEmpty
  | needle, b :: rest => startsWithList needle (b :: rest) || substringOf needle rest

/-- Python `s.lower()`, character by character. -/
def lowerData (s : String) : List Char := s.data.map Char.toLower

/-- The filter test of `search_processes`:
`search_term in process_info['name'].lower()` with the term lowered. -/
def matchesSearch (term : String) (r : ProcRecord) : Bool :=
  substringOf (lowerData term) (lowerData r.name)

/-! ### Hierarchy filter / view -/

/-- One row of the rendered treeview.  The code inserts
`values = (pid, name, status, cpu, mem, ppid)`; the two formatted float
columns are display strings and are omitted.  `depth` is 0 for a
top-level insertion (`self.tree.insert("", ...)`) and 1 for an
insertion under a parent item; `parent` is the parent pid in the latter
case. -/
structure Row where
  pid : Nat
  name : String
  status : String
  ppid : Nat
  depth : Nat
  parent : Option Nat
  deriving Repr, DecidableEq

/-- Render state while `search_processes` runs: the rows inserted so
far, and `self.tree_items` — the pids registered with a top-level item
id (only top-level insertions execute `self.tree_items[pid] = item_id`;
a row inserted under a parent is never registered). -/
abbrev RenderState := List Row × List Nat

/-- Helper building the row for a process. -/
def mkRow (pid : Nat) (r : ProcRecord) (depth : Nat) (parent : Option Nat) : Row :=
  { pid := pid, name := r.name, status := r.status, ppid := r.ppid,
    depth := depth, parent := parent }

/-- `_insert_process_to_treeview(pid, process_info)`:
if `ppid == 0 or ppid not in self.process_data` the process is inserted
top level and registered in `tree_items`; otherwise, only when
`self.children_visible`, it is inserted under the parent item when the
parent pid is registered in `tree_items`, else top level (and
registered); when `children_visible` is false and the parent is in the
table, nothing is inserted at all. -/
def insert_process_to_treeview (table : ProcTable) (children_visible : Bool)
    (st : RenderState) (pid : Nat) (r : ProcRecord) : RenderState :=
  if r.ppid == 0 || (dictLookup r.ppid table).isNone then
    (st.1 ++ [mkRow pid r 0 none], st.2 ++ [pid])
  else if children_visible then
    if r.ppid ∈ st.2 then
      (st.1 ++ [mkRow pid r 1 (some r.ppid)], st.2)
    else
      (st.1 ++ [mkRow pid r 0 none], st.2 ++ [pid])
  else
    st

/-- The body of the loop in `search_processes`: insert the process when
its name passes the search filter. -/
def searchStep (table : ProcTable) (term : String) (children_visible : Bool)
    (st : RenderState) (e : Nat × ProcRecord) : RenderState :=
  if matchesSearch term e.2 then
    insert_process_to_treeview table children_visible st e.1 e.2
  else
    st

/-- `search_processes`: clear the treeview and `tree_items`, then walk
the table in iteration order inserting every matching process. -/
def search_processes (table : ProcTable) (term : String)
    (children_visible : Bool) : RenderState :=
  table.foldl (searchStep table term children_visible) ([], [])

/-- The rendered rows (`render(table, search_term, show_children)` of
the specification). -/
def render (table : ProcTable) (term : String) (children_visible : Bool) :
    List Row :=
  (search_processes table term children_visible).1

/-- A display root in the sense of the code's first branch:
`ppid == 0 or ppid not in self.process_data`. -/
def isDisplayRoot (table : ProcTable) (r : ProcRecord) : Bool :=
  r.ppid == 0 || (dictLookup r.ppid table).isNone

/-! ### Process sampler (`_update_processes_thread` inner loop)

Each enumerated process either yields its attribute dict, or raising
`psutil.NoSuchProcess` / `psutil.AccessDenied` / `psutil.ZombieProcess`
on `as_dict` makes the loop log a warning and move on. -/

/-- The three per-process exceptions caught inside the sampling loop. -/
inductive SampleFailure
  | noSuchProcess
  | accessDenied
  | zombieProcess
  deriving Repr, DecidableEq

/-- The body of `for process in psutil.process_iter(...)`: append the
attribute dict on success, record a soft warning on failure. -/
def sampleStep (acc : List RawInfo × List SampleFailure)
    (e : Except SampleFailure RawInfo) : List RawInfo × List SampleFailure :=
  match e with
  | .ok info => (acc.1 ++ [info], acc.2)
  | .error f => (acc.1, acc.2 ++ [f])

/-- The sampling loop of `_update_processes_thread`: `processes = []`,
then one `try: append / except: warn` per enumerated process.  Returns
the successfully read entries in order, and the warnings. -/
def sampleLoop (entries : List (Except SampleFailure RawInfo)) :
    List RawInfo × List SampleFailure :=
  entries.foldl sampleStep ([], [])

/-! ### Periodic scheduler tasks

Each thread body is modelled on its probe outcome: `.ok` with the data
the OS calls returned, or `.error` when one of those calls raised.  The
result records what was published to the view, whether the task called
`self.master.after(interval, ...)` to reschedule itself, and whether an
error was logged. -/

/-- Outcome of one cycle of a periodic task. -/
structure PeriodicResult (α : Type) where
  published : Option α
  rescheduled : Bool
  loggedError : Bool
  deriving Repr, DecidableEq

/-- The CPU / memory / disk gauge values read by `update_system_info`. -/
structure Gauges where
  cpu_percent : Nat
  memory_percent : Nat
  disk_percent : Nat
  deriving Repr, DecidableEq

/-- `update_system_info`: inside `try`, read the gauges, publish the
three labels, and only then `self.master.after(1000, self.update_system_info)`;
the `except` clause logs the error and (the reschedule being inside the
`try`) never reschedules. -/
def update_system_info (probe : Except Unit Gauges) : PeriodicResult Gauges :=
  match probe with
  | .ok g => { published := some g, rescheduled := true, loggedError := false }
  | .error _ => { published := none, rescheduled := false, loggedError := true }

/-- `_update_processes_thread`: inside `try`, enumerate (the whole
enumeration may raise), run the per-process sampling loop, post
`process_data_update(processes)` and then
`self.master.after(2000, self.update_processes)`; the `except` clause
logs the error and never reschedules. -/
def update_processes_thread
    (enum : Except Unit (List (Except SampleFailure RawInfo))) :
    PeriodicResult (List RawInfo) × List SampleFailure :=
  match enum with
  | .ok entries =>
      ({ published := some (sampleLoop entries).1, rescheduled := true,
         loggedError := false }, (sampleLoop entries).2)
  | .error _ =>
      ({ published := none, rescheduled := false, loggedError := true }, [])

/-- `_check_removable_drive_thread`: the probe runs inside `try` and the
label update is published; on failure the `except` clause logs and
publishes an Error label; `self.master.after(5000, ...)` sits after the
whole `try/except`, so this task reschedules unconditionally. -/
def check_removable_drive_thread (probe : Except Unit (Option String)) :
    PeriodicResult (Option String) :=
  match probe with
  | .ok drive => { published := some drive, rescheduled := true, loggedError := false }
  | .error _ => { published := none, rescheduled := true, loggedError := true }

/-! ### Snapshot reconciler (`process_data_update`) -/

/-- The record built for one raw entry, with the freshly resolved
handle `psutil.Process(pid)`. -/
def mkRecord (raw : RawInfo) (handle : Nat) : ProcRecord :=
  { name := raw.name, status := raw.status, cpu_percent := raw.cpu_percent,
    memory_mb := raw.rss / (1024 * 1024), ppid := raw.ppid,
    process_obj := handle }

/-- The loop body of `process_data_update`: re-resolve the pid to a
live handle (`resolve pid = none` models `psutil.Process(pid)` — or any
of the attribute accesses — raising, which the code catches, logs as a
soft warning and skips with `continue`), else assign
`new_process_data[pid] = record`. -/
def reconcileStep (resolve : Nat → Option Nat)
    (acc : ProcTable × List Nat) (raw : RawInfo) : ProcTable × List Nat :=
  match resolve raw.pid with
  | some h => (dictInsert raw.pid (mkRecord raw h) acc.1, acc.2)
  | none => (acc.1, acc.2 ++ [raw.pid])

/-- The reconciliation loop of `process_data_update`:
`new_process_data = {}` then one step per raw entry.  Returns the fresh
table and the pids dropped with a warning. -/
def reconcile (resolve : Nat → Option Nat) (raws : List RawInfo) :
    ProcTable × List Nat :=
  raws.foldl (reconcileStep resolve) ([], [])

/-! ### Application state and control actions -/

/-- The mutable state of `TaskManagerApp` that the core touches: the
process-data cache, the search entry content, the children toggle, and
the treeview contents (rows plus the `tree_items` registry). -/
structure AppState where
  process_data : ProcTable
  search_term : String
  children_visible : Bool
  tree_rows : List Row
  tree_items : List Nat
  deriving Repr, DecidableEq

/-- `refresh_processes`: re-run `search_processes` against the current
table, term and toggle, replacing the treeview contents. -/
def refresh_processes (s : AppState) : AppState :=
  { s with
    tree_rows := (search_processes s.process_data s.search_term s.children_visible).1,
    tree_items := (search_processes s.process_data s.search_term s.children_visible).2 }

/-- `process_data_update(processes)`: build the fresh table with the
reconciliation loop, assign it to `self.process_data` in a single
reference assignment, then schedule `refresh_processes`. -/
def process_data_update (s : AppState) (resolve : Nat → Option Nat)
    (raws : List RawInfo) : AppState :=
  refresh_processes { s with process_data := (reconcile resolve raws).1 }

/-- The exceptions the control-action `try` bodies can raise:
`IndexError` from `self.tree.selection()[0]` on an empty selection,
`psutil.NoSuchProcess` / `psutil.AccessDenied` from the OS call, and a
catch-all for anything else. -/
inductive PyExc
  | indexError
  | noSuchProcess
  | accessDenied
  | otherExc
  deriving Repr, DecidableEq

/-- Outcome of the OS call (`process.kill()` / `suspend()` /
`resume()`) on the cached handle, passed in as data. -/
inductive OsOutcome
  | ok
  | noSuchProcess
  | accessDenied
  | otherError
  deriving Repr, DecidableEq

/-- The warning/error classification an action logs. -/
inductive Signal
  | processNotFound
  | permissionDenied
  | noSelection
  | otherFailure
  deriving Repr, DecidableEq

/-- What one control action did: the signal it logged (if any), whether
it called `refresh_processes`, and whether the OS handle was used. -/
structure ActionResult where
  signal : Option Signal
  refreshed : Bool
  osCallMade : Bool
  deriving Repr, DecidableEq

/-- The `try` body shared by `kill_selected_process`,
`suspend_selected_process` and `resume_selected_process` (they differ
only in which OS operation runs and in log strings): take the first
selected row (raising `IndexError` when the selection is empty); when
the pid is in `self.process_data`, run the OS operation on the cached
handle (its exceptions propagate to the handlers) and on success
refresh; when it is not, log a not-found warning and refresh. -/
def controlBody (s : AppState) (selection : List Nat) (osOutcome : OsOutcome) :
    Except PyExc (AppState × ActionResult) :=
  match selection.head? with
  | none => .error .indexError
  | some pid =>
    match dictLookup pid s.process_data with
    | some _ =>
      match osOutcome with
      | .ok => .ok (refresh_processes s, ⟨none, true, true⟩)
      | .noSuchProcess => .error .noSuchProcess
      | .accessDenied => .error .accessDenied
      | .otherError => .error .otherExc
    | none => .ok (refresh_processes s, ⟨some .processNotFound, true, false⟩)

/-- The `except` chain shared by the three control actions:
`IndexError` — warn, nothing else; `psutil.NoSuchProcess` — warn and
refresh; `psutil.AccessDenied` — warn, no refresh; `Exception` — log an
error.  `none` would mean an exception the chain does not catch
(nothing escapes: the final clause is a catch-all). -/
def controlHandler (s : AppState) :
    Except PyExc (AppState × ActionResult) → Option (AppState × ActionResult)
  | .ok out => some out
  | .error .indexError => some (s, ⟨some .noSelection, false, false⟩)
  | .error .noSuchProcess =>
      some (refresh_processes s, ⟨some .processNotFound, true, true⟩)
  | .error .accessDenied => some (s, ⟨some .permissionDenied, false, true⟩)
  | .error .otherExc => some (s, ⟨some .otherFailure, false, true⟩)

/-- `kill_selected_process`, as `try` body plus `except` chain. -/
def kill_selected_process (s : AppState) (selection : List Nat)
    (osOutcome : OsOutcome) : Option (AppState × ActionResult) :=
  controlHandler s (controlBody s selection osOutcome)

/-- `suspend_selected_process`: identical control flow, the OS call
being `process.suspend()`. -/
def suspend_selected_process (s : AppState) (selection : List Nat)
    (osOutcome : OsOutcome) : Option (AppState × ActionResult) :=
  controlHandler s (controlBody s selection osOutcome)

/-- `resume_selected_process`: identical control flow, the OS call
being `process.resume()`. -/
def resume_selected_process (s : AppState) (selection : List Nat)
    (osOutcome : OsOutcome) : Option (AppState × ActionResult) :=
  controlHandler s (controlBody s selection osOutcome)

/-- Outcome of the locate-executable attempt in `open_file_location`:
the folder opened, or `process.exe()` raised `AccessDenied`, the path
was gone (`FileNotFoundError`), the platform is unsupported, or some
other error — all caught by the inner `except` clauses. -/
inductive LocateOutcome
  | opened
  | accessDenied
  | fileNotFound
  | unsupportedOS
  | otherError
  deriving Repr, DecidableEq

/-- The `try` body of `open_file_location`: first selected row
(`IndexError` on empty selection); when the pid is in the table the
inner `try/except` resolves and opens the executable folder, handling
every failure locally with a warning and never refreshing; when it is
not, log a not-found warning and refresh. -/
def openFileLocationBody (s : AppState) (selection : List Nat)
    (o : LocateOutcome) : Except PyExc (AppState × ActionResult) :=
  match selection.head? with
  | none => .error .indexError
  | some pid =>
    match dictLookup pid s.process_data with
    | some _ =>
      match o with
      | .opened => .ok (s, ⟨none, false, true⟩)
      | .accessDenied => .ok (s, ⟨some .permissionDenied, false, true⟩)
      | .fileNotFound => .ok (s, ⟨some .otherFailure, false, true⟩)
      | .unsupportedOS => .ok (s, ⟨some .otherFailure, false, true⟩)
      | .otherError => .ok (s, ⟨some .otherFailure, false, true⟩)
    | none => .ok (refresh_processes s, ⟨some .processNotFound, true, false⟩)

/-- `open_file_location`: body plus outer `except` chain (`IndexError`
then a catch-all; the body never raises the psutil exceptions — the
inner handlers absorb them — so sharing `controlHandler` is exact). -/
def open_file_location (s : AppState) (selection : List Nat)
    (o : LocateOutcome) : Option (AppState × ActionResult) :=
  controlHandler s (openFileLocationBody s selection o)

/-! ### Concrete fixtures used in witnesses and counterexamples -/

/-- A record with the given name and parent pid and neutral remaining
attributes. -/
def sampleRecord (nm : String) (pp : Nat) : ProcRecord :=
  { name := nm, status := "running", cpu_percent := 0, memory_mb := 0,
    ppid := pp, process_obj := 0 }

/-- A root process and one child of it. -/
def exTableFlat : ProcTable :=
  [(1, sampleRecord "init" 0), (2, sampleRecord "worker" 1)]

/-- The three-process chain of the specification:
{1: root, 2: ppid 1, 3: ppid 2}. -/
def exTableChain : ProcTable :=
  [(1, sampleRecord "p1" 0), (2, sampleRecord "p2" 1), (3, sampleRecord "p3" 2)]

/-- A process that is its own parent. -/
def exTableSelf : ProcTable := [(5, sampleRecord "loop" 5)]

/-- Two processes forming a mutual ppid cycle. -/
def exTableMutual : ProcTable :=
  [(1, sampleRecord "m1" 2), (2, sampleRecord "m2" 1)]

/-- An application state over `exTableFlat` with empty search term. -/
def exState : AppState :=
  { process_data := exTableFlat, search_term := "", children_visible := false,
    tree_rows := [], tree_items := [] }

/-- A raw snapshot entry for pid 9. -/
def exRaw9 : RawInfo :=
  { pid := 9, name := "daemon", status := "sleeping", cpu_percent := 2,
    rss := 2097152, ppid := 1 }

/-- A raw snapshot entry for pid 4. -/
def exRaw4 : RawInfo :=
  { pid := 4, name := "shell", status := "running", cpu_percent := 1,
    rss := 1048576, ppid := 9 }

/-- A resolution oracle under which pid 9 is still alive and pid 4 has
vanished between sample and reconcile. -/
def exResolve : Nat → Option Nat := fun pid => if pid = 9 then some 90 else none

/-! ## Library of facts about the embedding -/

theorem startsWithList_iff (needle hay : List Char) :
    startsWithList needle hay = true ↔ ∃ t, needle ++ t = hay := by
  induction needle generalizing hay with
  | nil => simp [startsWithList]
  | cons a as ih =>
    cases hay with
    | nil => simp [startsWithList]
    | cons b bs =>
      simp [startsWithList, ih, List.cons_append, List.cons.injEq]

theorem substringOf_iff (needle hay : List Char) :
    substringOf needle hay = true ↔ ∃ s t, s ++ needle ++ t = hay := by
  induction hay with
  | nil =>
    simp [substringOf, List.isEmpty_iff]
  | cons b bs ih =>
    simp only [substringOf, Bool.or_eq_true, startsWithList_iff, ih]
    constructor
    · rintro (⟨t, h⟩ | ⟨s, t, h⟩)
      · exact ⟨[], t, by simpa using h⟩
      · exact ⟨b :: s, t, by simp [h]⟩
    · rintro ⟨s, t, h⟩
      cases s with
      | nil =>
        exact Or.inl ⟨t, by simpa using h⟩
      | cons c cs =>
        have h' : c = b ∧ cs ++ needle ++ t = bs := by
          simpa [List.append_assoc] using h
        exact Or.inr ⟨cs, t, h'.2⟩

theorem substringOf_nil_left (hay : List Char) : substringOf [] hay = true := by
  cases hay <;> simp [substringOf, startsWithList]

theorem lowerData_empty : lowerData "" = [] := rfl

/-! ### Dictionary facts -/

theorem dictKeys_dictInsert (k : Nat) (v : ProcRecord) (t : ProcTable) :
    dictKeys (dictInsert k v t)
      = if k ∈ dictKeys t then dictKeys t else dictKeys t ++ [k] := by
  induction t with
  | nil => simp [dictInsert, dictKeys]
  | cons e rest ih =>
    by_cases h : e.1 = k
    · subst h
      simp [dictInsert, dictKeys]
    · have hne : ¬ k = e.1 := fun hk => h hk.symm
      simp only [dictKeys, List.map_cons] at ih ⊢
      simp only [dictInsert, if_neg h, List.map_cons, ih, List.mem_cons, hne, false_or]
      by_cases hm : k ∈ List.map Prod.fst rest
      · simp [hm]
      · simp [hm]

theorem mem_dictKeys_dictInsert (k m : Nat) (v : ProcRecord) (t : ProcTable) :
    m ∈ dictKeys (dictInsert k v t) ↔ m = k ∨ m ∈ dictKeys t := by
  rw [dictKeys_dictInsert]
  by_cases h : k ∈ dictKeys t
  · simp only [if_pos h]
    constructor
    · exact Or.inr
    · rintro (rfl | hm)
      · exact h
      · exact hm
  · simp [if_neg h, or_comm]

theorem nodup_dictKeys_dictInsert (k : Nat) (v : ProcRecord) (t : ProcTable)
    (h : (dictKeys t).Nodup) : (dictKeys (dictInsert k v t)).Nodup := by
  rw [dictKeys_dictInsert]
  by_cases hm : k ∈ dictKeys t
  · simpa [hm] using h
  · simp [hm, List.nodup_append, h]

theorem dictLookup_isSome_iff (k : Nat) (t : ProcTable) :
    (dictLookup k t).isSome = true ↔ k ∈ dictKeys t := by
  induction t with
  | nil => simp [dictLookup, dictKeys]
  | cons e rest ih =>
    by_cases h : e.1 = k
    · subst h
      simp [dictLookup, dictKeys]
    · have hne : ¬ k = e.1 := fun hk => h hk.symm
      simp [dictLookup, h, dictKeys, hne, ih]

/-! ### Facts about the hierarchy filter / view -/

theorem insert_flat (table : ProcTable) (st : RenderState) (pid : Nat)
    (r : ProcRecord) :
    insert_process_to_treeview table false st pid r
      = if isDisplayRoot table r then (st.1 ++ [mkRow pid r 0 none], st.2 ++ [pid])
        else st := by
  by_cases h : (r.ppid == 0 || (dictLookup r.ppid table).isNone) = true
  · simp [insert_process_to_treeview, isDisplayRoot, h]
  · simp [insert_process_to_treeview, isDisplayRoot, h]

theorem search_flat_go (table : ProcTable) (term : String) :
    ∀ (l : ProcTable) (acc : RenderState),
      l.foldl (searchStep table term false) acc
        = (acc.1 ++ (l.filter fun e => matchesSearch term e.2 && isDisplayRoot table e.2).map
              (fun e => mkRow e.1 e.2 0 none),
           acc.2 ++ (l.filter fun e => matchesSearch term e.2 && isDisplayRoot table e.2).map
              Prod.fst) := by
  intro l
  induction l with
  | nil => intro acc; simp
  | cons e l ih =>
    intro acc
    rw [List.foldl_cons, ih]
    by_cases hm : matchesSearch term e.2 = true
    · by_cases hr : isDisplayRoot table e.2 = true
      · simp [searchStep, hm, hr, insert_flat, List.filter_cons, List.append_assoc]
      · simp [searchStep, hm, hr, insert_flat, List.filter_cons]
    · simp [searchStep, hm, List.filter_cons]

theorem insert_nested_rows_pid (table : ProcTable) (st : RenderState) (pid : Nat)
    (r : ProcRecord) :
    ((insert_process_to_treeview table true st pid r).1).map Row.pid
      = st.1.map Row.pid ++ [pid] := by
  by_cases h1 : (r.ppid == 0 || (dictLookup r.ppid table).isNone) = true
  · simp [insert_process_to_treeview, h1, mkRow]
  · by_cases h2 : r.ppid ∈ st.2
    · simp [insert_process_to_treeview, h1, h2, mkRow]
    · simp [insert_process_to_treeview, h1, h2, mkRow]

theorem search_nested_go_pids (table : ProcTable) (term : String) :
    ∀ (l : ProcTable) (acc : RenderState),
      ((l.foldl (searchStep table term true) acc).1).map Row.pid
        = acc.1.map Row.pid ++ (l.filter fun e => matchesSearch term e.2).map Prod.fst := by
  intro l
  induction l with
  | nil => intro acc; simp
  | cons e l ih =>
    intro acc
    rw [List.foldl_cons, ih]
    by_cases hm : matchesSearch term e.2 = true
    · simp [searchStep, hm, insert_nested_rows_pid, List.filter_cons, List.append_assoc]
    · simp [searchStep, hm, List.filter_cons]

theorem insert_rows_cases (table : ProcTable) (cv : Bool) (st : RenderState)
    (pid : Nat) (r : ProcRecord) :
    (insert_process_to_treeview table cv st pid r).1 = st.1 ∨
    ∃ d p, d ≤ 1 ∧
      (insert_process_to_treeview table cv st pid r).1 = st.1 ++ [mkRow pid r d p] := by
  by_cases h1 : (r.ppid == 0 || (dictLookup r.ppid table).isNone) = true
  · exact Or.inr ⟨0, none, by simp, by simp [insert_process_to_treeview, h1]⟩
  · cases cv with
    | false => exact Or.inl (by simp [insert_process_to_treeview, h1])
    | true =>
      by_cases h2 : r.ppid ∈ st.2
      · exact Or.inr ⟨1, some r.ppid, le_refl 1,
          by simp [insert_process_to_treeview, h1, h2]⟩
      · exact Or.inr ⟨0, none, by simp,
          by simp [insert_process_to_treeview, h1, h2]⟩

theorem search_go_mem (table : ProcTable) (term : String) (cv : Bool) :
    ∀ (l : ProcTable) (acc : RenderState) (row : Row),
      row ∈ (l.foldl (searchStep table term cv) acc).1 →
      row ∈ acc.1 ∨
      ∃ e, e ∈ l ∧ matchesSearch term e.2 = true ∧
        row.name = e.2.name ∧ row.pid = e.1 ∧ row.depth ≤ 1 := by
  intro l
  induction l with
  | nil =>
    intro acc row h
    exact Or.inl (by simpa using h)
  | cons e l ih =>
    intro acc row h
    rw [List.foldl_cons] at h
    rcases ih (searchStep table term cv acc e) row h with hacc | ⟨e', he', hm', hn, hp, hd⟩
    · by_cases hm : matchesSearch term e.2 = true
      · have hstep : searchStep table term cv acc e
            = insert_process_to_treeview table cv acc e.1 e.2 := by
          simp [searchStep, hm]
        rw [hstep] at hacc
        rcases insert_rows_cases table cv acc e.1 e.2 with hcase | ⟨d, p, hdle, hcase⟩
        · rw [hcase] at hacc
          exact Or.inl hacc
        · rw [hcase] at hacc
          rcases List.mem_append.1 hacc with hin | hnew
          · exact Or.inl hin
          · have hrow : row = mkRow e.1 e.2 d p := by simpa using hnew
            subst hrow
            exact Or.inr ⟨e, List.mem_cons_self e l, hm, rfl, rfl, hdle⟩
      · have hstep : searchStep table term cv acc e = acc := by
          simp [searchStep, hm]
        rw [hstep] at hacc
        exact Or.inl hacc
    · exact Or.inr ⟨e', List.mem_cons_of_mem e he', hm', hn, hp, hd⟩

theorem refresh_processes_process_data (s : AppState) :
    (refresh_processes s).process_data = s.process_data := rfl

/-! ### Facts about the sampler -/

theorem sample_go (entries : List (Except SampleFailure RawInfo)) :
    ∀ acc, entries.foldl sampleStep acc
      = (acc.1 ++ (sampleLoop entries).1, acc.2 ++ (sampleLoop entries).2) := by
  induction entries with
  | nil => intro acc; simp [sampleLoop]
  | cons e l ih =>
    intro acc
    have h2 : sampleLoop (e :: l)
        = ((sampleStep ([], []) e).1 ++ (sampleLoop l).1,
           (sampleStep ([], []) e).2 ++ (sampleLoop l).2) := by
      rw [sampleLoop, List.foldl_cons, ih]
    rw [List.foldl_cons, ih, h2]
    cases e <;> simp [sampleStep]

theorem sampleLoop_append (l₁ l₂ : List (Except SampleFailure RawInfo)) :
    sampleLoop (l₁ ++ l₂)
      = ((sampleLoop l₁).1 ++ (sampleLoop l₂).1,
         (sampleLoop l₁).2 ++ (sampleLoop l₂).2) := by
  rw [sampleLoop, List.foldl_append]
  exact sample_go l₂ (sampleLoop l₁)

theorem sampleLoop_map_ok (l : List RawInfo) :
    sampleLoop (l.map Except.ok) = (l, []) := by
  induction l with
  | nil => rfl
  | cons i l ih =>
    rw [List.map_cons, sampleLoop, List.foldl_cons, sample_go]
    simp [sampleStep, ih]

theorem sampleLoop_cons_err (f : SampleFailure)
    (l : List (Except SampleFailure RawInfo)) :
    sampleLoop (Except.error f :: l)
      = ((sampleLoop l).1, f :: (sampleLoop l).2) := by
  rw [sampleLoop, List.foldl_cons, sample_go]
  simp [sampleStep]

/-! ### Facts about the reconciler -/

theorem reconcile_go_keys_mono (resolve : Nat → Option Nat) :
    ∀ (raws : List RawInfo) (acc : ProcTable × List Nat) (k : Nat),
      k ∈ dictKeys acc.1 →
      k ∈ dictKeys (raws.foldl (reconcileStep resolve) acc).1 := by
  intro raws
  induction raws with
  | nil =>
    intro acc k h
    simpa using h
  | cons raw l ih =>
    intro acc k h
    rw [List.foldl_cons]
    apply ih
    cases hres : resolve raw.pid with
    | some hdl => simpa [reconcileStep, hres, mem_dictKeys_dictInsert] using Or.inr h
    | none => simpa [reconcileStep, hres] using h

theorem reconcile_go_dropped_mono (resolve : Nat → Option Nat) :
    ∀ (raws : List RawInfo) (acc : ProcTable × List Nat) (p : Nat),
      p ∈ acc.2 →
      p ∈ (raws.foldl (reconcileStep resolve) acc).2 := by
  intro raws
  induction raws with
  | nil =>
    intro acc p h
    simpa using h
  | cons raw l ih =>
    intro acc p h
    rw [List.foldl_cons]
    apply ih
    cases hres : resolve raw.pid with
    | some hdl => simpa [reconcileStep, hres] using h
    | none => simp [reconcileStep, hres, h]

theorem reconcile_go_resolved_mem (resolve : Nat → Option Nat) :
    ∀ (raws : List RawInfo) (acc : ProcTable × List Nat) (raw : RawInfo),
      raw ∈ raws → (resolve raw.pid).isSome = true →
      raw.pid ∈ dictKeys (raws.foldl (reconcileStep resolve) acc).1 := by
  intro raws
  induction raws with
  | nil =>
    intro acc raw h
    simp at h
  | cons r l ih =>
    intro acc raw hmem hres
    rw [List.foldl_cons]
    rcases List.mem_cons.1 hmem with heq | hmem'
    · subst heq
      apply reconcile_go_keys_mono
      cases hr : resolve raw.pid with
      | some hdl => simp [reconcileStep, hr, mem_dictKeys_dictInsert]
      | none =>
        rw [hr] at hres
        simp at hres
    · exact ih _ raw hmem' hres

theorem reconcile_go_unresolved_dropped (resolve : Nat → Option Nat) :
    ∀ (raws : List RawInfo) (acc : ProcTable × List Nat) (raw : RawInfo),
      raw ∈ raws → resolve raw.pid = none →
      raw.pid ∈ (raws.foldl (reconcileStep resolve) acc).2 := by
  intro raws
  induction raws with
  | nil =>
    intro acc raw h
    simp at h
  | cons r l ih =>
    intro acc raw hmem hres
    rw [List.foldl_cons]
    rcases List.mem_cons.1 hmem with heq | hmem'
    · subst heq
      apply reconcile_go_dropped_mono
      simp [reconcileStep, hres]
    · exact ih _ raw hmem' hres

theorem reconcile_go_nodup (resolve : Nat → Option Nat) :
    ∀ (raws : List RawInfo) (acc : ProcTable × List Nat),
      (dictKeys acc.1).Nodup →
      (dictKeys (raws.foldl (reconcileStep resolve) acc).1).Nodup := by
  intro raws
  induction raws with
  | nil =>
    intro acc h
    simpa using h
  | cons raw l ih =>
    intro acc h
    rw [List.foldl_cons]
    apply ih
    cases hres : resolve raw.pid with
    | some hdl => simpa [reconcileStep, hres] using nodup_dictKeys_dictInsert _ _ _ h
    | none => simpa [reconcileStep, hres] using h

/-! ## Claims -/

/-- C1, counterexample: with `show_children = false` the rendering is
not one row per matching process — in `exTableFlat` the process with
pid 2 is in the table and its name matches the empty search term, yet
the flat rendering contains only the row for pid 1: the code's
`_insert_process_to_treeview` silently drops a process whose ppid is a
key of the table when `children_visible` is false. -/
theorem flat_render_omits_child_counterexample :
    (render exTableFlat "" false).map Row.pid = [1] ∧
    dictLookup 2 exTableFlat = some (sampleRecord "worker" 1) ∧
    matchesSearch "" (sampleRecord "worker" 1) = true := by
  refine ⟨by decide, by decide, by decide⟩

/-- C1 (amended): for every process table and search term, rendering
with `show_children = false` produces a flat list containing exactly
one row, at depth 0, for every matching process whose ppid is 0 or
absent from the table (a display root), in table iteration order;
matching processes whose ppid is a key of the table are omitted (their
rows are hidden together with the children toggle). -/
theorem flat_render_roots_only (table : ProcTable) (term : String) :
    render table term false
      = (table.filter fun e => matchesSearch term e.2 && isDisplayRoot table e.2).map
          (fun e => mkRow e.1 e.2 0 none) := by
  have h := search_flat_go table term table ([], [])
  rw [render, search_processes, h]
  simp

/-- C4: with `show_children = true`, a process is emitted nested at
depth 1 under its parent's row exactly when the parent pid is a key of
the table and the parent's row has been emitted as a registered
top-level row; a process whose ppid is 0, absent from the table, or
whose parent row is not registered is emitted as a root at depth 0.
Nesting is single level (every rendered row has depth at most 1), and
on the table {1: root, 2: ppid 1, 3: ppid 2} the empty-term rendering
places 2 under 1 and places 3 as a root. -/
theorem nested_placement_rule :
    (∀ (table : ProcTable) (st : RenderState) (pid : Nat) (r : ProcRecord),
      insert_process_to_treeview table true st pid r
        = if r.ppid ≠ 0 ∧ (dictLookup r.ppid table).isSome = true ∧ r.ppid ∈ st.2
          then (st.1 ++ [mkRow pid r 1 (some r.ppid)], st.2)
          else (st.1 ++ [mkRow pid r 0 none], st.2 ++ [pid])) ∧
    (∀ (table : ProcTable) (term : String) (row : Row),
      row ∈ render table term true → row.depth ≤ 1) ∧
    (render exTableChain "" true).map (fun row => (row.pid, row.depth, row.parent))
      = [(1, 0, none), (2, 1, some 1), (3, 0, none)] := by
  refine ⟨?_, ?_, by decide⟩
  · intro table st pid r
    by_cases h0 : r.ppid = 0
    · simp [insert_process_to_treeview, h0]
    · cases hdl : dictLookup r.ppid table with
      | none => simp [insert_process_to_treeview, hdl, h0]
      | some v =>
        by_cases hmem : r.ppid ∈ st.2
        · simp [insert_process_to_treeview, hdl, h0, hmem]
        · simp [insert_process_to_treeview, hdl, h0, hmem]
  · intro table term row hrow
    rcases search_go_mem table term true table ([], []) row hrow with h | ⟨e, _, _, _, _, hd⟩
    · simp at h
    · exact hd

/-- C4, witness: the nested row for pid 2 of the example table is
rendered, and the depth bound applies to it. -/
theorem nested_placement_rule_witness :
    mkRow 2 (sampleRecord "p2" 1) 1 (some 1) ∈ render exTableChain "" true ∧
    (mkRow 2 (sampleRecord "p2" 1) 1 (some 1)).depth ≤ 1 :=
  ⟨by decide, nested_placement_rule.2.1 exTableChain "" _ (by decide)⟩

/-- C5, counterexample: the claim fails in both of its parts — a
self-parented process is emitted zero times (not exactly once as a
root) by the flat rendering, and in a mutual cycle the nested rendering
emits the second process at depth 1 under the first (not as a root at
depth 0). -/
theorem cycle_render_counterexample :
    render exTableSelf "" false = [] ∧
    (render exTableMutual "" true).map (fun row => (row.pid, row.depth))
      = [(1, 0), (2, 1)] := by
  refine ⟨by decide, by decide⟩

/-- C5 (amended): rendering always terminates, and with
`show_children = true` it emits every matching process exactly once (the
rendered pids are exactly the matching table keys in iteration order),
so a cyclic ppid chain never loops or duplicates; a self-parented
process is emitted once as a root at depth 0 in nested mode, while the
flat mode omits it like every process whose ppid is a table key; for a
two-process mutual cycle the nested mode emits the first as a root and
the second nested at depth 1. -/
theorem cycle_render_behavior :
    (∀ (table : ProcTable) (term : String),
      (render table term true).map Row.pid
        = (table.filter fun e => matchesSearch term e.2).map Prod.fst) ∧
    render exTableSelf "" true = [mkRow 5 (sampleRecord "loop" 5) 0 none] ∧
    render exTableSelf "" false = [] ∧
    (render exTableMutual "" true).map (fun row => (row.pid, row.depth))
      = [(1, 0), (2, 1)] := by
  refine ⟨?_, by decide, by decide, by decide⟩
  intro table term
  have h := search_nested_go_pids table term table ([], [])
  rw [render, search_processes]
  simpa using h

/-- C6: the search filter selects exactly the records whose lowered
name contains the lowered term as a contiguous substring (case
insensitivity via lowering both sides); the empty term matches every
record; and every emitted row's name contains the term ignoring case,
in both render modes. -/
theorem search_filter_characterization :
    (∀ (term : String) (r : ProcRecord),
      matchesSearch term r = true ↔
        ∃ s t, s ++ lowerData term ++ t = lowerData r.name) ∧
    (∀ r : ProcRecord, matchesSearch "" r = true) ∧
    (∀ (table : ProcTable) (term : String) (cv : Bool) (row : Row),
      row ∈ render table term cv →
      ∃ s t, s ++ lowerData term ++ t = lowerData row.name) := by
  refine ⟨?_, ?_, ?_⟩
  · intro term r
    exact substringOf_iff _ _
  · intro r
    rw [matchesSearch, lowerData_empty]
    exact substringOf_nil_left _
  · intro table term cv row hrow
    rcases search_go_mem table term cv table ([], []) row hrow with h | ⟨e, _, hm, hname, _, _⟩
    · simp at h
    · rw [hname]
      exact (substringOf_iff _ _).1 hm

/-- C6, witness: the mixed-case term ORK is found, ignoring case,
inside the name of the rendered row for pid 2 of `exTableFlat`. -/
theorem search_filter_characterization_witness :
    ∃ s t, s ++ lowerData "ORK" ++ t
        = lowerData (mkRow 2 (sampleRecord "worker" 1) 0 none).name :=
  search_filter_characterization.2.2 exTableFlat "ORK" true
    (mkRow 2 (sampleRecord "worker" 1) 0 none) (by decide)

/-- C2: the reconciliation `process_data_update` builds a completely
fresh table from the raw snapshot and replaces the previous one in a
single reference assignment — the new `process_data` equals the output
of the reconciliation loop started from the empty dict, independently
of the previous table; the fresh table has unique pid keys; every raw
entry whose handle resolves contributes a record keyed by its pid; and
every raw entry whose handle cannot be re-resolved is dropped into the
soft-warning list instead of aborting the reconciliation. -/
theorem reconcile_swap_fresh_unique :
    ∀ (s : AppState) (resolve : Nat → Option Nat) (raws : List RawInfo),
      (process_data_update s resolve raws).process_data
          = (reconcile resolve raws).1 ∧
      (dictKeys (reconcile resolve raws).1).Nodup ∧
      (∀ raw, raw ∈ raws → (resolve raw.pid).isSome = true →
        (dictLookup raw.pid (reconcile resolve raws).1).isSome = true) ∧
      (∀ raw, raw ∈ raws → resolve raw.pid = none →
        raw.pid ∈ (reconcile resolve raws).2) := by
  intro s resolve raws
  refine ⟨rfl, ?_, ?_, ?_⟩
  · exact reconcile_go_nodup resolve raws ([], []) (by simp [dictKeys])
  · intro raw hmem hres
    rw [dictLookup_isSome_iff]
    exact reconcile_go_resolved_mem resolve raws ([], []) raw hmem hres
  · intro raw hmem hres
    exact reconcile_go_unresolved_dropped resolve raws ([], []) raw hmem hres

/-- C2, witness: reconciling the two-entry snapshot under `exResolve`
keeps pid 9 (resolvable) and drops pid 4 (vanished) with a warning,
with unique keys, and the state update installs exactly that table. -/
theorem reconcile_swap_fresh_unique_witness :
    (process_data_update exState exResolve [exRaw9, exRaw4]).process_data
        = (reconcile exResolve [exRaw9, exRaw4]).1 ∧
    (dictKeys (reconcile exResolve [exRaw9, exRaw4]).1).Nodup ∧
    (dictLookup 9 (reconcile exResolve [exRaw9, exRaw4]).1).isSome = true ∧
    4 ∈ (reconcile exResolve [exRaw9, exRaw4]).2 := by
  have h := reconcile_swap_fresh_unique exState exResolve [exRaw9, exRaw4]
  exact ⟨h.1, h.2.1, h.2.2.1 exRaw9 (by decide) (by decide),
    h.2.2.2 exRaw4 (by decide) (by decide)⟩

/-- C3: the code contradicts the claim — when a gauge or
process-sampling cycle fails, the failure is logged but the reschedule
call sits inside the `try`, so the task never reschedules itself and
stops permanently; the removable-drive task, whose reschedule sits
after the `try/except`, does reschedule on failure, showing the
intended pattern. -/
theorem failed_cycle_not_rescheduled :
    update_system_info (Except.error ())
        = { published := none, rescheduled := false, loggedError := true } ∧
    (update_processes_thread (Except.error ())).1
        = { published := none, rescheduled := false, loggedError := true } ∧
    (check_removable_drive_thread (Except.error ())).rescheduled = true :=
  ⟨rfl, rfl, rfl⟩

/-- C7: every outcome of `kill_selected_process` is classified: pid
absent from the current table — signal ProcessNotFound and refresh; OS
reports the process already exited — signal ProcessNotFound and
refresh; OS reports insufficient privilege — signal PermissionDenied
and no refresh; success — refresh immediately; and no outcome escapes
the handler chain (the result is always `some`).  Suspend and resume
share the identical control path, so the same classification covers
every control action. -/
theorem control_action_outcomes :
    ∀ (s : AppState) (sel : List Nat) (o : OsOutcome),
      suspend_selected_process s sel o = kill_selected_process s sel o ∧
      resume_selected_process s sel o = kill_selected_process s sel o ∧
      (kill_selected_process s sel o).isSome = true ∧
      (∀ pid, sel.head? = some pid →
        (dictLookup pid s.process_data = none →
          kill_selected_process s sel o
            = some (refresh_processes s,
                { signal := some Signal.processNotFound, refreshed := true,
                  osCallMade := false })) ∧
        ((dictLookup pid s.process_data).isSome = true →
          (o = OsOutcome.noSuchProcess →
            kill_selected_process s sel o
              = some (refresh_processes s,
                  { signal := some Signal.processNotFound, refreshed := true,
                    osCallMade := true })) ∧
          (o = OsOutcome.accessDenied →
            kill_selected_process s sel o
              = some (s, { signal := some Signal.permissionDenied,
                           refreshed := false, osCallMade := true })) ∧
          (o = OsOutcome.ok →
            kill_selected_process s sel o
              = some (refresh_processes s,
                  { signal := none, refreshed := true, osCallMade := true })))) := by
  intro s sel o
  refine ⟨rfl, rfl, ?_, ?_⟩
  · cases hb : controlBody s sel o with
    | ok out => simp [kill_selected_process, hb, controlHandler]
    | error exc => cases exc <;> simp [kill_selected_process, hb, controlHandler]
  · intro pid hpid
    cases sel with
    | nil => simp at hpid
    | cons a rest =>
      have ha : pid = a := by simpa using hpid.symm
      subst ha
      constructor
      · intro hnone
        simp [kill_selected_process, controlBody, hnone, controlHandler]
      · intro hsome
        rcases Option.isSome_iff_exists.1 hsome with ⟨v, hv⟩
        refine ⟨?_, ?_, ?_⟩
        · rintro rfl
          simp [kill_selected_process, controlBody, hv, controlHandler]
        · rintro rfl
          simp [kill_selected_process, controlBody, hv, controlHandler]
        · rintro rfl
          simp [kill_selected_process, controlBody, hv, controlHandler]

/-- C7, witness: killing pid 2 of `exState` while the OS denies
permission signals PermissionDenied and does not refresh. -/
theorem control_action_outcomes_witness :
    kill_selected_process exState [2] OsOutcome.accessDenied
      = some (exState, { signal := some Signal.permissionDenied,
                         refreshed := false, osCallMade := true }) := by
  have h := (control_action_outcomes exState [2] OsOutcome.accessDenied).2.2.2 2 (by decide)
  exact (h.2 (by decide)).2.1 rfl

/-- C8: no control action mutates the cached process table — for every
state, selection and OS outcome, the state produced by kill, suspend,
resume or locate carries exactly the same `process_data` as before; only
the treeview may be recomputed from it. -/
theorem control_actions_preserve_table :
    ∀ (s : AppState) (sel : List Nat) (o : OsOutcome) (lo : LocateOutcome),
      (kill_selected_process s sel o).map (fun out => out.1.process_data)
          = some s.process_data ∧
      (suspend_selected_process s sel o).map (fun out => out.1.process_data)
          = some s.process_data ∧
      (resume_selected_process s sel o).map (fun out => out.1.process_data)
          = some s.process_data ∧
      (open_file_location s sel lo).map (fun out => out.1.process_data)
          = some s.process_data := by
  intro s sel o lo
  have hk : ∀ (o : OsOutcome),
      (controlHandler s (controlBody s sel o)).map (fun out => out.1.process_data)
        = some s.process_data := by
    intro o
    cases hsel : sel.head? with
    | none => simp [controlBody, hsel, controlHandler]
    | some pid =>
      cases hlk : dictLookup pid s.process_data with
      | none =>
        simp [controlBody, hsel, hlk, controlHandler, refresh_processes_process_data]
      | some v =>
        cases o <;>
          simp [controlBody, hsel, hlk, controlHandler, refresh_processes_process_data]
  refine ⟨hk o, hk o, hk o, ?_⟩
  cases hsel : sel.head? with
  | none => simp [open_file_location, openFileLocationBody, hsel, controlHandler]
  | some pid =>
    cases hlk : dictLookup pid s.process_data with
    | none =>
      simp [open_file_location, openFileLocationBody, hsel, hlk, controlHandler,
        refresh_processes_process_data]
    | some v =>
      cases lo <;>
        simp [open_file_location, openFileLocationBody, hsel, hlk, controlHandler]

/-- C9: one unreadable process never aborts the sampling pass — for
every enumeration in which exactly one process raises one of the three
caught per-process exceptions, the pass publishes the list of all other
(successfully read) entries in order, reports that one failure as a
soft warning, and still reschedules. -/
theorem sampler_skips_failed_process :
    ∀ (pre post : List RawInfo) (f : SampleFailure),
      update_processes_thread
          (Except.ok (pre.map Except.ok ++ Except.error f :: post.map Except.ok))
        = ({ published := some (pre ++ post), rescheduled := true,
             loggedError := false }, [f]) := by
  intro pre post f
  have hs : sampleLoop (pre.map Except.ok ++ Except.error f :: post.map Except.ok)
      = (pre ++ post, [f]) := by
    rw [sampleLoop_append, sampleLoop_cons_err, sampleLoop_map_ok, sampleLoop_map_ok]
    simp
  simp [update_processes_thread, hs]

/-- C10: invoking any control action with an empty selection is handled
internally — the IndexError from `selection()[0]` is caught, a warning
(`noSelection`) is logged, no OS call is made, the state (and with it
the process table) is left unchanged and not refreshed, and the result
is `some`, i.e. no exception propagates to the caller. -/
theorem empty_selection_handled :
    ∀ (s : AppState) (o : OsOutcome) (lo : LocateOutcome),
      kill_selected_process s [] o
          = some (s, { signal := some Signal.noSelection, refreshed := false,
                       osCallMade := false }) ∧
      suspend_selected_process s [] o
          = some (s, { signal := some Signal.noSelection, refreshed := false,
                       osCallMade := false }) ∧
      resume_selected_process s [] o
          = some (s, { signal := some Signal.noSelection, refreshed := false,
                       osCallMade := false }) ∧
      open_file_location s [] lo
          = some (s, { signal := some Signal.noSelection, refreshed := false,
                       osCallMade := false }) := by
  intro s o lo
  exact ⟨rfl, rfl, rfl, rfl⟩

end TaskManagerApp
